import Mathlib

/-!
Verification of the synthpop synthesizer driver (`synthpop/synthesizer.py`).

The development shallowly embeds the pure logic of `synthesize`,
`synthesize_all` and `synthesize_all_in_parallel`.  The external numeric
collaborators (IPF solver, categorizer, IPU solver, drawer, recipe) are not
part of the source file; following the spec's external-interface section they
are abstracted as parameters, and where a claim depends on their behaviour the
contract is modelled from the spec.

Tables are embedded as lists: a marginal is a list of (top-level category
label, value) pairs, a joint-distribution table is a list of rows carrying a
`cat_id` and a `frequency`, and a sample (PUMS) table is represented by its
`cat_id` column.  Household and person result rows keep exactly the fields the
claims are about: the integer household id (the pandas row index), the person
`hh_id` foreign key, and the optional geography key columns (`none` when the
driver never wrote them).
-/

namespace Synthpop

/-- A geography identifier: the four key columns (state, county, tract,
block group) that `BlockGroupID` carries and the drivers write onto rows. -/
structure GeogId where
  state : ℕ
  county : ℕ
  tract : ℕ
  blockGroup : ℕ
  deriving DecidableEq, Repr

/-- Fit-quality record: person-level chi-square statistic and p-value. -/
structure FitQual where
  peopleChisq : ℚ
  peopleP : ℚ
  deriving DecidableEq, Repr

/-- One row of a joint-distribution table: a category id and a frequency. -/
structure JDRow where
  cat_id : ℕ
  frequency : ℚ
  deriving DecidableEq, Repr

/-- A marginal table for one geography: (top-level category label, value)
pairs, the embedding of a pandas Series with a two-level index grouped by
its first level. -/
abbrev Marg : Type := List (ℕ × ℚ)

/-- Zero-Guard on a plain value column: `Series.replace(0, sub)`, replacing
exact zeros by `sub` and leaving every other value unchanged. -/
def replaceZero (xs : List ℚ) (sub : ℚ) : List ℚ :=
  xs.map (fun v => if v = 0 then sub else v)

/-- Zero-Guard on a marginal table: `h_marg.replace(0, marginal_zero_sub)`
applied to the value column, keeping the category labels. -/
def replaceZeroMarg (m : Marg) (sub : ℚ) : Marg :=
  m.map (fun p => (p.1, if p.2 = 0 then sub else p.2))

/-- Zero-Guard on a joint-distribution table:
`jd.frequency = jd.frequency.replace(0, jd_zero_sub)`. -/
def replaceZeroJD (jd : List JDRow) (sub : ℚ) : List JDRow :=
  jd.map (fun r => ⟨r.cat_id, if r.frequency = 0 then sub else r.frequency⟩)

/-- Maximum of the `cat_id` column of a joint-distribution table
(`h_jd['cat_id'].max()`; the table is nonempty in every real run). -/
def maxCatId (jd : List JDRow) : ℕ :=
  (jd.map JDRow.cat_id).foldr max 0

/-- Category Namespacer on the person joint-distribution table:
`p_jd['cat_id'] += h_jd['cat_id'].max() + 1`. -/
def namespacePjd (h_jd p_jd : List JDRow) : List JDRow :=
  p_jd.map (fun r => ⟨r.cat_id + (maxCatId h_jd + 1), r.frequency⟩)

/-- Category Namespacer on the person sample table's `cat_id` column:
`p_pums['cat_id'] += h_jd['cat_id'].max() + 1`. -/
def namespacePpums (h_jd : List JDRow) (p_pums : List ℕ) : List ℕ :=
  p_pums.map (fun c => c + (maxCatId h_jd + 1))

/-- Distinct top-level category labels of a marginal, in first-occurrence
order (the groups of `groupby(level=0)`). -/
def margLabels (m : Marg) : List ℕ :=
  (m.map Prod.fst).dedup

/-- Sum of the marginal values carrying one top-level label
(one group's sum in `groupby(level=0).sum()`). -/
def margGroupSum (m : Marg) (l : ℕ) : ℚ :=
  ((m.filter (fun p => p.1 = l)).map Prod.snd).sum

/-- The per-label group sums `h_marg.groupby(level=0).sum()`. -/
def margGroupSums (m : Marg) : List ℚ :=
  (margLabels m).map (margGroupSum m)

/-- Arithmetic mean of a list of rationals (`Series.mean()`). -/
def listMean (xs : List ℚ) : ℚ :=
  xs.sum / xs.length

/-- Number of households to draw:
`int(h_marg.groupby(level=0).sum().mean())`, Python `int()` truncating the
(nonnegative) mean towards zero. -/
def numHouseholds (m : Marg) : ℕ :=
  (listMean (margGroupSums m)).floor.toNat

/-- Output of one per-geography synthesis run, the quadruple
`(households, people, people_chisq, people_p)` that `synthesize` returns:
the drawn household table is represented by its row index (`hh_ids`), the
drawn person table by its `hh_id` column (`people`). -/
structure SynthOut where
  hh_ids : List ℕ
  people : List ℕ
  chisq : ℚ
  pval : ℚ
  deriving DecidableEq, Repr

/-- Modelled from the spec: the external collaborators of `synthesize`
(section 6 of the spec), whose code is outside the source file.
`calculate_constraints` is the IPF solver, `frequency_tables` the
categorizer's cross-tabulation, `household_weights` the IPU solver returning
(weights, fit-quality, iterations used), and `draw_households` the stochastic
drawer returning the quadruple above.  Fallible collaborators return
`Except`. -/
structure Externals where
  calculate_constraints : Marg → List ℚ → Except String (List ℚ)
  frequency_tables : List ℕ → List ℕ → List ℕ → List ℕ → (List ℚ × List ℚ)
  household_weights : List ℚ → List ℚ → List ℚ → List ℚ → ℕ →
    Except String (List ℚ × ℚ × ℕ)
  draw_households : ℕ → List ℕ → List ℕ → List ℚ → List ℚ → List ℚ →
    List ℚ → ℕ → Except String SynthOut

/-- Input tables of `synthesize` for one geography.  The sample tables are
represented by their `cat_id` columns (the only columns `synthesize`
touches). -/
structure SynthIn where
  h_marg : Marg
  p_marg : Marg
  h_jd : List JDRow
  p_jd : List JDRow
  h_pums : List ℕ
  p_pums : List ℕ
  deriving DecidableEq, Repr

/-- Result of `synthesize`, together with the state of the caller's mutable
argument tables after the call.  In the Python source
`h_marg = h_marg.replace(...)` rebinds a local (the caller's marginal object
is untouched), so `final_h_marg`/`final_p_marg` are the unchanged inputs,
while `h_jd.frequency = ...`, `p_jd['cat_id'] += ...` and
`p_pums['cat_id'] += ...` assign columns in place, mutating the caller's
tables; the `final_` fields record those objects' values on return. -/
structure SynthRes where
  out : SynthOut
  warned : Bool
  iterations : ℕ
  drawn_count : ℕ
  final_h_marg : Marg
  final_p_marg : Marg
  final_h_jd : List JDRow
  final_p_jd : List JDRow
  final_p_pums : List ℕ
  deriving DecidableEq, Repr

/-- The per-geography synthesis stage, `synthesize(h_marg, p_marg, h_jd,
p_jd, h_pums, p_pums, marginal_zero_sub, jd_zero_sub, hh_index_start)`:
Zero-Guard on both marginals and both joint frequency columns, IPF for
households and persons, Category Namespacer on the person tables, constraint
re-indexing, frequency tables, IPU bounded to 20000 iterations (a full
budget is only logged as a warning, recorded in `warned`), household-count
determination, and the draw. -/
def synthesize (ext : Externals) (inp : SynthIn) (msub jsub : ℚ)
    (hh_index_start : ℕ) : Except String SynthRes := do
  let h_marg := replaceZeroMarg inp.h_marg msub
  let p_marg := replaceZeroMarg inp.p_marg msub
  let h_jd := replaceZeroJD inp.h_jd jsub
  let p_jd0 := replaceZeroJD inp.p_jd jsub
  let h_constraint ← ext.calculate_constraints h_marg (h_jd.map JDRow.frequency)
  let p_constraint0 ← ext.calculate_constraints p_marg (p_jd0.map JDRow.frequency)
  let p_jd := namespacePjd inp.h_jd p_jd0
  let p_pums := namespacePpums inp.h_jd inp.p_pums
  let _p_constraint_index := p_jd.map JDRow.cat_id
  let freqs := ext.frequency_tables p_pums inp.h_pums
    (p_jd.map JDRow.cat_id) (h_jd.map JDRow.cat_id)
  let fitted ← ext.household_weights freqs.1 freqs.2 h_constraint p_constraint0 20000
  let best_weights := fitted.1
  let iterations := fitted.2.2
  let warned := iterations == 20000
  let num_households := numHouseholds h_marg
  let out ← ext.draw_households num_households inp.h_pums p_pums freqs.1
    h_constraint p_constraint0 best_weights hh_index_start
  pure ⟨out, warned, iterations, num_households,
    inp.h_marg, inp.p_marg, h_jd, p_jd, p_pums⟩

/-- One row of the aggregated household table: its row index (the household
id) and the geography key columns the driver wrote onto it (`none` when no
geography columns were ever assigned). -/
structure HouseholdRow where
  id : ℕ
  geo : Option GeogId
  deriving DecidableEq, Repr

/-- One row of the aggregated person table: its `hh_id` foreign key and the
geography key columns, `none` when the driver never wrote them. -/
structure PersonRow where
  hh_id : ℕ
  geo : Option GeogId
  deriving DecidableEq, Repr

/-- Driver accumulator: the growing household and person lists
(`hh_list`/`people_list`, kept flattened since concatenation is the final
step), the fit-quality map in insertion order, and the running
`hh_index_start` offset. -/
structure RunAcc where
  hhs : List HouseholdRow
  ppl : List PersonRow
  fit : List (GeogId × FitQual)
  start : ℕ
  deriving DecidableEq, Repr

/-- Initial driver state: empty result lists, offset 0. -/
def initAcc : RunAcc := ⟨[], [], [], 0⟩

/-- One iteration of the sequential driver loop in `synthesize_all`: fetch
the geography's inputs from the recipe, synthesize at the current
`hh_index_start`, write the geography key columns onto the household rows,
append both tables and the FitQuality entry, and advance `hh_index_start` to
one past the last household row index when the geography produced any
households.  An exception from the fetch or from `synthesize` propagates
(there is no handler in `synthesize_all`). -/
def seqStep {I E : Type} (fetch : GeogId → Except E I)
    (synth : I → ℕ → Except E SynthOut) (acc : RunAcc) (gid : GeogId) :
    Except E RunAcc := do
  let inp ← fetch gid
  let out ← synth inp acc.start
  pure
    { hhs := acc.hhs ++ out.hh_ids.map (fun i => HouseholdRow.mk i (some gid))
      ppl := acc.ppl ++ out.people.map (fun h => ⟨h, none⟩)
      fit := acc.fit ++ [(gid, ⟨out.chisq, out.pval⟩)]
      start :=
        match out.hh_ids.getLast? with
        | none => acc.start
        | some l => l + 1 }

/-- The sequential driver `synthesize_all`: iterate the geography ids in
order, threading the running household-id offset, and return the
concatenated tables and the fit-quality map. -/
def seqRun {I E : Type} (fetch : GeogId → Except E I)
    (synth : I → ℕ → Except E SynthOut) (indexes : List GeogId) :
    Except E RunAcc :=
  indexes.foldlM (seqStep fetch synth) initAcc

/-- Phase-3 reassembly step of `synthesize_all_in_parallel`, processing one
(submitted geography id, finished future) pair: a failed future is reported
and skipped (the accumulator is unchanged); on success the geography key
columns are appended to the household rows, the household index and the
person `hh_id` column are shifted by the running offset, both tables and the
FitQuality entry are appended, and the offset advances to one past the last
shifted household index when any households were produced. -/
def parStep {E : Type} (acc : RunAcc) (pr : GeogId × Except E SynthOut) :
    RunAcc :=
  match pr.2 with
  | .error _ => acc
  | .ok out =>
    { hhs := acc.hhs ++ out.hh_ids.map (fun i => HouseholdRow.mk (i + acc.start) (some pr.1))
      ppl := acc.ppl ++ out.people.map (fun h => ⟨h + acc.start, none⟩)
      fit := acc.fit ++ [(pr.1, ⟨out.chisq, out.pval⟩)]
      start :=
        match out.hh_ids.getLast? with
        | none => acc.start
        | some l => l + acc.start + 1 }

/-- Phase-1 result collection of the parallel driver: walk the phase-1
futures in completion order (`order` lists submission positions in the order
`as_completed` yields them) and gather each `finished_arg.result()`.  A
future that raised re-raises here, unhandled, aborting the whole driver
call. -/
def collectArgs {I E : Type} (fetch : GeogId → Except E I)
    (indexes : List GeogId) : List ℕ → Except E (List I)
  | [] => .ok []
  | j :: rest => do
    let a ← fetch (indexes.getD j ⟨0, 0, 0, 0⟩)
    let as ← collectArgs fetch indexes rest
    pure (a :: as)

/-- The parallel driver `synthesize_all_in_parallel`.  `order` is the
completion order of the phase-1 preprocessing futures (`as_completed`), a
permutation of the submission positions.  Phase 1 collects
`finished_args` in completion order, re-raising any fetch exception
unhandled (it aborts the whole call); phase 2 submits `synthesize` on each
finished argument tuple with the default `hh_index_start = 0`; phase 3
iterates `enumerate(futures)` pairing `futures[i]` with `geog_ids[i]`, the
i-th id in submission order. -/
def parRun {I E : Type} (fetch : GeogId → Except E I)
    (synth : I → ℕ → Except E SynthOut) (indexes : List GeogId)
    (order : List ℕ) : Except E RunAcc := do
  let finished_args ← collectArgs fetch indexes order
  let futures := finished_args.map (fun a => synth a 0)
  pure ((indexes.zip futures).foldl parStep initAcc)

/-- Bind of a success in the `Except` monad. -/
theorem ok_bind {E α β : Type} (a : α) (f : α → Except E β) :
    (Except.ok a >>= f) = f a := rfl

/-- Bind of a failure in the `Except` monad. -/
theorem error_bind {E α β : Type} (e : E) (f : α → Except E β) :
    ((Except.error e : Except E α) >>= f) = Except.error e := rfl

/-- Decidable equality of `Except` values with decidable components. -/
instance {E α : Type} [DecidableEq E] [DecidableEq α] :
    DecidableEq (Except E α) := fun a b =>
  match a, b with
  | .error e, .error f =>
    if h : e = f then .isTrue (by rw [h])
    else .isFalse (by intro hh; cases hh; exact h rfl)
  | .ok x, .ok y =>
    if h : x = y then .isTrue (by rw [h])
    else .isFalse (by intro hh; cases hh; exact h rfl)
  | .error _, .ok _ => .isFalse (by intro hh; cases hh)
  | .ok _, .error _ => .isFalse (by intro hh; cases hh)

/-- Modelled from the spec: the contract of the external drawer (sections
4.3 and 6), which is not part of the source file.  A successful
per-geography synthesis returns households indexed consecutively from the
supplied `hh_index_start` offset, and person rows whose `hh_id` references
one of the drawn households. -/
def DrawContract {I E : Type} (synth : I → ℕ → Except E SynthOut) : Prop :=
  ∀ inp s out, synth inp s = .ok out →
    out.hh_ids = (List.range out.hh_ids.length).map (fun i => s + i) ∧
    ∀ h ∈ out.people, h ∈ out.hh_ids

/-- Driver invariant: the concatenated household index is exactly
`0, 1, ..., start - 1`, and every accumulated person row's `hh_id` is one of
the accumulated household ids. -/
def GoodAcc (acc : RunAcc) : Prop :=
  acc.hhs.map HouseholdRow.id = List.range acc.start ∧
  ∀ p ∈ acc.ppl, p.hh_id ∈ acc.hhs.map HouseholdRow.id

/-- The offset update of the drivers (one past the last household index,
unchanged on an empty table) advances the offset by exactly the number of
drawn households when the index is `s, s + 1, ..., s + n - 1`. -/
theorem getLast_shift (n s : ℕ) :
    (match ((List.range n).map (fun i => s + i)).getLast? with
      | none => s
      | some l => l + 1) = s + n := by
  cases n with
  | zero => simp
  | succ m =>
    have h1 : ((List.range (m + 1)).map (fun i => s + i)).getLast? = some (s + m) := by
      have h2 : List.range (m + 1) = List.range m ++ [m] := by
        simpa using List.range_succ (n := m)
      rw [h2]
      simp
    rw [h1]
    show s + m + 1 = s + (m + 1)
    omega

/-- Offset update in the parallel driver: the unshifted index is
`0, ..., n - 1` and the update adds the running offset before the final
increment. -/
theorem getLast_shift_par (n s : ℕ) :
    (match (List.range n).getLast? with
      | none => s
      | some l => l + s + 1) = s + n := by
  cases n with
  | zero => simp
  | succ m =>
    have h1 : (List.range (m + 1)).getLast? = some m := by
      have h2 : List.range (m + 1) = List.range m ++ [m] := by
        simpa using List.range_succ (n := m)
      rw [h2]
      simp
    rw [h1]
    show m + s + 1 = s + (m + 1)
    omega

/-- Concatenating a block of `n` consecutive ids starting at `s` onto the
ids `0, ..., s - 1` yields the ids `0, ..., s + n - 1`. -/
theorem range_append_block (s n : ℕ) :
    List.range s ++ (List.range n).map (fun i => s + i) = List.range (s + n) := by
  simpa using (List.range_add s n).symm

/-- A successful sequential-driver step preserves the id invariant, given
the drawer contract. -/
theorem seqStep_good {I E : Type} (fetch : GeogId → Except E I)
    (synth : I → ℕ → Except E SynthOut) (hc : DrawContract synth)
    (acc : RunAcc) (gid : GeogId) (r : RunAcc) (hP : GoodAcc acc)
    (h : seqStep fetch synth acc gid = .ok r) : GoodAcc r := by
  unfold seqStep at h
  cases hf : fetch gid with
  | error e => rw [hf, error_bind] at h; cases h
  | ok inp =>
    rw [hf, ok_bind] at h
    cases hs : synth inp acc.start with
    | error e => rw [hs, error_bind] at h; cases h
    | ok out =>
      rw [hs, ok_bind] at h
      obtain ⟨hids, hppl⟩ := hc inp acc.start out hs
      obtain ⟨hacc_ids, hacc_ppl⟩ := hP
      cases h
      constructor
      · show (acc.hhs ++ out.hh_ids.map (fun i => HouseholdRow.mk i (some gid))).map HouseholdRow.id =
          List.range _
        rw [List.map_append, List.map_map]
        have hm : (HouseholdRow.id ∘ fun i => HouseholdRow.mk i (some gid)) =
            fun i => i := rfl
        rw [hm, List.map_id', hacc_ids]
        have hend : (match out.hh_ids.getLast? with
            | none => acc.start
            | some l => l + 1) = acc.start + out.hh_ids.length := by
          conv_lhs => rw [hids]
          exact getLast_shift out.hh_ids.length acc.start
        rw [hend]
        conv_lhs => rw [hids]
        exact range_append_block acc.start out.hh_ids.length
      · intro p hp
        rw [List.mem_append] at hp
        rw [List.map_append]
        rcases hp with hp | hp
        · exact List.mem_append_left _ (hacc_ppl p hp)
        · rw [List.mem_map] at hp
          obtain ⟨hh, hhmem, hpe⟩ := hp
          apply List.mem_append_right
          rw [List.map_map]
          have hm : (HouseholdRow.id ∘ fun i => HouseholdRow.mk i (some gid)) =
              fun i => i := rfl
          rw [hm, List.map_id']
          rw [← hpe]
          exact hppl hh hhmem

/-- A parallel reassembly step preserves the id invariant, provided the
future's value (when successful) satisfies the drawer contract at offset
zero. -/
theorem parStep_good {E : Type} (acc : RunAcc) (pr : GeogId × Except E SynthOut)
    (hok : ∀ out, pr.2 = .ok out →
      out.hh_ids = List.range out.hh_ids.length ∧
      ∀ h ∈ out.people, h ∈ out.hh_ids)
    (hP : GoodAcc acc) : GoodAcc (parStep acc pr) := by
  obtain ⟨gid, res⟩ := pr
  obtain ⟨hacc_ids, hacc_ppl⟩ := hP
  cases res with
  | error e => exact ⟨hacc_ids, hacc_ppl⟩
  | ok out =>
    obtain ⟨hids, hppl⟩ := hok out rfl
    constructor
    · show (acc.hhs ++ out.hh_ids.map
          (fun i => HouseholdRow.mk (i + acc.start) (some gid))).map
          HouseholdRow.id =
        List.range (match out.hh_ids.getLast? with
          | none => acc.start
          | some l => l + acc.start + 1)
      rw [List.map_append, List.map_map]
      have hm : (HouseholdRow.id ∘ fun i => HouseholdRow.mk (i + acc.start) (some gid)) =
          fun i => i + acc.start := rfl
      rw [hm, hacc_ids]
      have hend : (match out.hh_ids.getLast? with
          | none => acc.start
          | some l => l + acc.start + 1) = acc.start + out.hh_ids.length := by
        conv_lhs => rw [hids]
        exact getLast_shift_par out.hh_ids.length acc.start
      rw [hend]
      conv_lhs => rw [hids]
      have hcomm : ((List.range out.hh_ids.length).map (fun i => i + acc.start)) =
          (List.range out.hh_ids.length).map (fun i => acc.start + i) := by
        apply List.map_congr_left
        intro a _
        omega
      rw [hcomm]
      exact range_append_block acc.start out.hh_ids.length
    · show ∀ p ∈ acc.ppl ++ out.people.map (fun h => PersonRow.mk (h + acc.start) none),
        p.hh_id ∈ (acc.hhs ++ out.hh_ids.map
          (fun i => HouseholdRow.mk (i + acc.start) (some gid))).map HouseholdRow.id
      intro p hp
      rw [List.mem_append] at hp
      rw [List.map_append]
      rcases hp with hp | hp
      · exact List.mem_append_left _ (hacc_ppl p hp)
      · rw [List.mem_map] at hp
        obtain ⟨hh, hhmem, hpe⟩ := hp
        apply List.mem_append_right
        rw [List.map_map]
        have hm : (HouseholdRow.id ∘ fun i => HouseholdRow.mk (i + acc.start) (some gid)) =
            fun i => i + acc.start := rfl
        rw [hm]
        rw [← hpe]
        exact List.mem_map_of_mem _ (hppl hh hhmem)

/-- Invariant preservation along the sequential driver loop: if every
successful step on a listed geography preserves a property of the
accumulator, a successful whole run preserves it. -/
theorem seq_fold_inv {I E : Type} (fetch : GeogId → Except E I)
    (synth : I → ℕ → Except E SynthOut) (P : RunAcc → Prop) :
    ∀ ids : List GeogId,
      (∀ acc gid r, gid ∈ ids → P acc →
        seqStep fetch synth acc gid = .ok r → P r) →
      ∀ acc r : RunAcc, P acc →
        ids.foldlM (seqStep fetch synth) acc = .ok r → P r := by
  intro ids
  induction ids with
  | nil =>
    intro _ acc r hP h
    have h' : Except.ok acc = Except.ok r := h
    cases h'
    exact hP
  | cons g t ih =>
    intro hstep acc r hP h
    have h' : (seqStep fetch synth acc g >>=
        fun b => t.foldlM (seqStep fetch synth) b) = .ok r := h
    cases hs : seqStep fetch synth acc g with
    | error e => rw [hs, error_bind] at h'; cases h'
    | ok acc2 =>
      rw [hs, ok_bind] at h'
      exact ih (fun a gid r2 hm => hstep a gid r2 (List.mem_cons_of_mem _ hm))
        acc2 r (hstep acc g acc2 (List.mem_cons_self g t) hP hs) h'

/-- Invariant preservation along the phase-3 reassembly fold of the parallel
driver. -/
theorem par_fold_inv {E : Type} (P : RunAcc → Prop) :
    ∀ paired : List (GeogId × Except E SynthOut),
      (∀ acc pr, pr ∈ paired → P acc → P (parStep acc pr)) →
      ∀ acc : RunAcc, P acc → P (paired.foldl parStep acc) := by
  intro paired
  induction paired with
  | nil => intro _ acc hP; exact hP
  | cons pr t ih =>
    intro hstep acc hP
    exact ih (fun a q hq => hstep a q (List.mem_cons_of_mem _ hq))
      (parStep acc pr) (hstep acc pr (List.mem_cons_self pr t) hP)

/-- A successful parallel run decomposes into a successful phase-1
collection and the phase-3 fold over the submission-ordered pairing. -/
theorem parRun_ok_elim {I E : Type} (fetch : GeogId → Except E I)
    (synth : I → ℕ → Except E SynthOut) (indexes : List GeogId)
    (order : List ℕ) (r : RunAcc)
    (h : parRun fetch synth indexes order = .ok r) :
    ∃ args, collectArgs fetch indexes order = .ok args ∧
      r = (indexes.zip (args.map (fun a => synth a 0))).foldl parStep initAcc := by
  unfold parRun at h
  cases hargs : collectArgs fetch indexes order with
  | error e => rw [hargs, error_bind] at h; cases h
  | ok args =>
    rw [hargs, ok_bind] at h
    have h' : Except.ok ((indexes.zip (args.map (fun a => synth a 0))).foldl
        parStep initAcc) = Except.ok r := h
    cases h'
    exact ⟨args, rfl, rfl⟩

/-- The empty accumulator satisfies the id invariant. -/
theorem goodAcc_init : GoodAcc initAcc := by
  constructor
  · simp [initAcc]
  · intro p hp
    simp [initAcc] at hp

/-- Successful futures of the parallel driver's phase 2 satisfy the drawer
contract at offset zero: their household index is `0, ..., n - 1`. -/
theorem par_future_contract {I E : Type} (synth : I → ℕ → Except E SynthOut)
    (hc : DrawContract synth) (args : List I) (indexes : List GeogId)
    (pr : GeogId × Except E SynthOut)
    (hpr : pr ∈ indexes.zip (args.map (fun a => synth a 0))) :
    ∀ out, pr.2 = .ok out →
      out.hh_ids = List.range out.hh_ids.length ∧
      ∀ h ∈ out.people, h ∈ out.hh_ids := by
  intro out hout
  have h2 : pr.2 ∈ args.map (fun a => synth a 0) := (List.of_mem_zip hpr).2
  rw [List.mem_map] at h2
  obtain ⟨a, _, ha⟩ := h2
  obtain ⟨hids, hppl⟩ := hc a 0 out (by rw [ha, hout])
  refine ⟨?_, hppl⟩
  conv_lhs => rw [hids]
  simp

/-- Geography-column invariant: every accumulated household row carries the
key columns of one of the submitted geographies, and no person row carries
any. -/
def GeoAcc (ids : List GeogId) (acc : RunAcc) : Prop :=
  (∀ h ∈ acc.hhs, ∃ g ∈ ids, h.geo = some g) ∧
  ∀ p ∈ acc.ppl, p.geo = none

/-- The empty accumulator satisfies the geography-column invariant. -/
theorem geoAcc_init (ids : List GeogId) : GeoAcc ids initAcc := by
  constructor
  · intro h hh; simp [initAcc] at hh
  · intro p hp; simp [initAcc] at hp

/-- A successful sequential step preserves the geography-column
invariant. -/
theorem seqStep_geo {I E : Type} (fetch : GeogId → Except E I)
    (synth : I → ℕ → Except E SynthOut) (ids : List GeogId)
    (acc : RunAcc) (gid : GeogId) (r : RunAcc) (hg : gid ∈ ids)
    (hP : GeoAcc ids acc) (h : seqStep fetch synth acc gid = .ok r) :
    GeoAcc ids r := by
  unfold seqStep at h
  cases hf : fetch gid with
  | error e => rw [hf, error_bind] at h; cases h
  | ok inp =>
    rw [hf, ok_bind] at h
    cases hs : synth inp acc.start with
    | error e => rw [hs, error_bind] at h; cases h
    | ok out =>
      rw [hs, ok_bind] at h
      obtain ⟨hhh, hpp⟩ := hP
      cases h
      constructor
      · intro hrow hmem
        rw [List.mem_append] at hmem
        rcases hmem with hmem | hmem
        · exact hhh hrow hmem
        · rw [List.mem_map] at hmem
          obtain ⟨i, _, hi⟩ := hmem
          exact ⟨gid, hg, by rw [← hi]⟩
      · intro p hp
        rw [List.mem_append] at hp
        rcases hp with hp | hp
        · exact hpp p hp
        · rw [List.mem_map] at hp
          obtain ⟨hh2, _, hi⟩ := hp
          rw [← hi]

/-- A parallel reassembly step preserves the geography-column invariant. -/
theorem parStep_geo {E : Type} (ids : List GeogId) (acc : RunAcc)
    (pr : GeogId × Except E SynthOut) (hg : pr.1 ∈ ids)
    (hP : GeoAcc ids acc) : GeoAcc ids (parStep acc pr) := by
  obtain ⟨gid, res⟩ := pr
  obtain ⟨hhh, hpp⟩ := hP
  cases res with
  | error e => exact ⟨hhh, hpp⟩
  | ok out =>
    constructor
    · show ∀ h ∈ acc.hhs ++ out.hh_ids.map
          (fun i => HouseholdRow.mk (i + acc.start) (some gid)),
        ∃ g ∈ ids, h.geo = some g
      intro hrow hmem
      rw [List.mem_append] at hmem
      rcases hmem with hmem | hmem
      · exact hhh hrow hmem
      · rw [List.mem_map] at hmem
        obtain ⟨i, _, hi⟩ := hmem
        exact ⟨gid, hg, by rw [← hi]⟩
    · show ∀ p ∈ acc.ppl ++ out.people.map (fun h => PersonRow.mk (h + acc.start) none),
        p.geo = none
      intro p hp
      rw [List.mem_append] at hp
      rcases hp with hp | hp
      · exact hpp p hp
      · rw [List.mem_map] at hp
        obtain ⟨hh2, _, hi⟩ := hp
        rw [← hi]

/-- When every fetch succeeds, phase 1 returns the fetched inputs in
completion order. -/
theorem collectArgs_ok {I E : Type} (fetch : GeogId → Except E I)
    (inpF : GeogId → I) (hf : ∀ g, fetch g = .ok (inpF g))
    (indexes : List GeogId) :
    ∀ order : List ℕ, collectArgs fetch indexes order =
      .ok (order.map (fun j => inpF (indexes.getD j ⟨0, 0, 0, 0⟩))) := by
  intro order
  induction order with
  | nil => rfl
  | cons j rest ih =>
    show (fetch (indexes.getD j ⟨0, 0, 0, 0⟩) >>= fun a =>
      collectArgs fetch indexes rest >>= fun as => pure (a :: as)) = _
    rw [hf, ok_bind, ih, ok_bind]
    rfl

/-- Reading a list back through positional lookups over the index range
reproduces the list. -/
theorem getD_range_map {α : Type} (d : α) :
    ∀ l : List α, (List.range l.length).map (fun j => l.getD j d) = l := by
  intro l
  induction l with
  | nil => rfl
  | cons a t ih =>
    have h1 : List.range (t.length + 1) = 0 :: (List.range t.length).map Nat.succ :=
      List.range_succ_eq_map t.length
    show (List.range (t.length + 1)).map (fun j => (a :: t).getD j d) = a :: t
    rw [h1]
    simp only [List.map_cons, List.map_map]
    have h2 : ((fun j => (a :: t).getD j d) ∘ Nat.succ) = fun j => t.getD j d := by
      funext j
      rfl
    rw [h2, ih]
    rfl

/-- Zipping a list with its own image pairs each element with its image. -/
theorem zip_self_map {α β : Type} (f : α → β) :
    ∀ l : List α, l.zip (l.map f) = l.map (fun a => (a, f a)) := by
  intro l
  induction l with
  | nil => rfl
  | cons a t ih => simp [ih]

/-- Fit-quality coverage of the phase-3 fold: the geographies recorded in
the FitQuality map are exactly those whose future succeeded, in order. -/
theorem par_fit_filter {E : Type} (s : GeogId → Except E SynthOut) :
    ∀ (ids : List GeogId) (acc : RunAcc),
      ((ids.map (fun g => (g, s g))).foldl parStep acc).fit.map Prod.fst =
        acc.fit.map Prod.fst ++ ids.filter (fun g => (s g).isOk) := by
  intro ids
  induction ids with
  | nil => intro acc; simp
  | cons g t ih =>
    intro acc
    rw [List.map_cons, List.foldl_cons, ih, List.filter_cons]
    cases hs : s g with
    | error e =>
      have hstep : parStep acc (g, (Except.error e : Except E SynthOut)) = acc := rfl
      rw [hstep]
      simp [Except.isOk, Except.toBool]
    | ok out =>
      have hstep : (parStep acc (g, (Except.ok out : Except E SynthOut))).fit =
          acc.fit ++ [(g, ⟨out.chisq, out.pval⟩)] := rfl
      rw [hstep]
      simp [Except.isOk, Except.toBool]

/-- Household coverage of the phase-3 fold: every accumulated household row
either was already present or carries the key columns of a geography whose
future succeeded. -/
theorem par_hh_succeed {E : Type} (s : GeogId → Except E SynthOut) :
    ∀ (ids : List GeogId) (acc : RunAcc) (h : HouseholdRow),
      h ∈ ((ids.map (fun g => (g, s g))).foldl parStep acc).hhs →
      h ∈ acc.hhs ∨ ∃ g ∈ ids, (s g).isOk ∧ h.geo = some g := by
  intro ids
  induction ids with
  | nil => intro acc h hm; exact Or.inl hm
  | cons g t ih =>
    intro acc h hm
    rw [List.map_cons, List.foldl_cons] at hm
    have hm2 := ih (parStep acc (g, s g)) h hm
    rcases hm2 with hm2 | ⟨g2, hg2, hok, hgeo⟩
    · cases hs : s g with
      | error e =>
        rw [hs] at hm2
        exact Or.inl hm2
      | ok out =>
        rw [hs] at hm2
        have hm3 : h ∈ acc.hhs ++ out.hh_ids.map
            (fun i => HouseholdRow.mk (i + acc.start) (some g)) := hm2
        rw [List.mem_append] at hm3
        rcases hm3 with hm3 | hm3
        · exact Or.inl hm3
        · rw [List.mem_map] at hm3
          obtain ⟨i, _, hi⟩ := hm3
          refine Or.inr ⟨g, List.mem_cons_self g t, ?_, by rw [← hi]⟩
          rw [hs]
          rfl
    · exact Or.inr ⟨g2, List.mem_cons_of_mem _ hg2, hok, hgeo⟩

/-- A successful `Except` bind decomposes into a successful first stage and
a successful continuation. -/
theorem bind_ok_elim {E α β : Type} {x : Except E α} {f : α → Except E β}
    {b : β} (h : (x >>= f) = .ok b) : ∃ a, x = .ok a ∧ f a = .ok b := by
  cases x with
  | error e => rw [error_bind] at h; cases h
  | ok a => exact ⟨a, rfl, h⟩

/-- Shape of a successful `synthesize` call: the household count handed to
the drawer is the truncated mean of the zero-substituted marginal's group
sums, the caller's marginal tables come back unchanged, and the caller's
joint-distribution and person-sample tables come back with the in-place
column assignments applied. -/
theorem synthesize_ok_shape (ext : Externals) (inp : SynthIn) (msub jsub : ℚ)
    (st : ℕ) (r : SynthRes) (h : synthesize ext inp msub jsub st = .ok r) :
    r.drawn_count = numHouseholds (replaceZeroMarg inp.h_marg msub) ∧
    r.final_h_marg = inp.h_marg ∧
    r.final_p_marg = inp.p_marg ∧
    r.final_h_jd = replaceZeroJD inp.h_jd jsub ∧
    r.final_p_jd = namespacePjd inp.h_jd (replaceZeroJD inp.p_jd jsub) ∧
    r.final_p_pums = namespacePpums inp.h_jd inp.p_pums := by
  unfold synthesize at h
  obtain ⟨c1, hc1, h⟩ := bind_ok_elim h
  obtain ⟨c2, hc2, h⟩ := bind_ok_elim h
  obtain ⟨fitted, hw, h⟩ := bind_ok_elim h
  obtain ⟨out, hd, h⟩ := bind_ok_elim h
  have h' : Except.ok (⟨out, fitted.2.2 == 20000, fitted.2.2,
      numHouseholds (replaceZeroMarg inp.h_marg msub), inp.h_marg, inp.p_marg,
      replaceZeroJD inp.h_jd jsub,
      namespacePjd inp.h_jd (replaceZeroJD inp.p_jd jsub),
      namespacePpums inp.h_jd inp.p_pums⟩ : SynthRes) = Except.ok r := h
  cases h'
  exact ⟨rfl, rfl, rfl, rfl, rfl, rfl⟩

/-- Every entry of the `cat_id` column is bounded by the column maximum. -/
theorem le_maxCatId (jd : List JDRow) (a : ℕ) (ha : a ∈ jd.map JDRow.cat_id) :
    a ≤ maxCatId jd := by
  unfold maxCatId
  induction jd with
  | nil => simp at ha
  | cons rrow t ih =>
    rw [List.map_cons] at ha ⊢
    rw [List.mem_cons] at ha
    rw [List.foldr_cons]
    rcases ha with ha | ha
    · rw [ha]
      exact le_max_left _ _
    · exact le_trans (ih ha) (le_max_right _ _)

/-- A first demonstration geography. -/
def gA : GeogId := ⟨6, 1, 100, 1⟩

/-- A second demonstration geography. -/
def gB : GeogId := ⟨6, 1, 100, 2⟩

/-- Demonstration geography family used in the five-geography scenario. -/
def gC (k : ℕ) : GeogId := ⟨1, 1, 1, k⟩

/-- Five demonstration geographies. -/
def fiveGeogs : List GeogId := [gC 1, gC 2, gC 3, gC 4, gC 5]

/-- A recipe whose input fetch always succeeds, standing in for the
per-geography table retrieval; the fetched input is the geography id
itself. -/
def demoFetch : GeogId → Except String GeogId := fun g => .ok g

/-- A per-geography synthesis stage satisfying the drawer contract:
geography `gA` yields one household (chi-square 1), every other geography
yields two households (chi-square 2). -/
def demoSynth : GeogId → ℕ → Except String SynthOut := fun g s =>
  if g = gA then .ok ⟨[s], [s], 1, 1⟩
  else .ok ⟨[s, s + 1], [s, s + 1], 2, 1⟩

/-- The demonstration synthesis stage satisfies the drawer contract. -/
theorem demoSynth_contract : DrawContract demoSynth := by
  intro inp s out h
  unfold demoSynth at h
  by_cases hg : inp = gA
  · rw [if_pos hg] at h
    cases h
    constructor
    · show [s] = (List.range 1).map (fun i => s + i)
      rfl
    · intro x hx
      exact hx
  · rw [if_neg hg] at h
    cases h
    constructor
    · show [s, s + 1] = (List.range 2).map (fun i => s + i)
      show [s, s + 1] = [s + 0, s + 1]
      simp
    · intro x hx
      exact hx

/-- A recipe fetch that raises on the third of the five demonstration
geographies. -/
def fetchBoom : GeogId → Except String GeogId := fun g =>
  if g = gC 3 then .error "fetch failed" else .ok g

/-- A per-geography synthesis stage that fails on the third demonstration
geography and draws one household everywhere else. -/
def synthBoom : GeogId → ℕ → Except String SynthOut := fun g s =>
  if g = gC 3 then .error "worker failed" else .ok ⟨[s], [s], 1, 1⟩

/-- Trivial external collaborators (empty constraint vectors, empty
frequency tables, converging IPU, empty draw), enough to exercise the
`synthesize` control flow on concrete inputs. -/
def extTriv : Externals :=
  { calculate_constraints := fun _ _ => .ok []
    frequency_tables := fun _ _ _ _ => ([], [])
    household_weights := fun _ _ _ _ _ => .ok ([], 0, 1)
    draw_households := fun _ _ _ _ _ _ _ _ => .ok ⟨[], [], 0, 0⟩ }

/-- External collaborators whose IPU solver consumes its full iteration
budget (reports 20000 iterations). -/
def extWarn : Externals :=
  { calculate_constraints := fun _ _ => .ok []
    frequency_tables := fun _ _ _ _ => ([], [])
    household_weights := fun _ _ _ _ _ => .ok ([], 0, 20000)
    draw_households := fun _ _ _ _ _ _ _ _ => .ok ⟨[], [], 0, 0⟩ }

/-- Concrete `synthesize` input whose household marginal has two categories
with group totals 1 and 2. -/
def c5In : SynthIn := ⟨[(0, 1), (1, 2)], [], [], [], [], []⟩

/-- Concrete `synthesize` input whose household joint distribution has one
zero-frequency cell. -/
def c9In : SynthIn := ⟨[(0, 1)], [(0, 1)], [⟨0, 0⟩], [⟨0, 5⟩], [0], [0]⟩

/-- A successful sequential run satisfies the id invariant. -/
theorem seqRun_good {I E : Type} (fetch : GeogId → Except E I)
    (synth : I → ℕ → Except E SynthOut) (hc : DrawContract synth)
    (ids : List GeogId) (r : RunAcc) (h : seqRun fetch synth ids = .ok r) :
    GoodAcc r :=
  seq_fold_inv fetch synth GoodAcc ids
    (fun acc gid r2 _ hP hs => seqStep_good fetch synth hc acc gid r2 hP hs)
    initAcc r goodAcc_init h

/-- A successful parallel run satisfies the id invariant. -/
theorem parRun_good {I E : Type} (fetch : GeogId → Except E I)
    (synth : I → ℕ → Except E SynthOut) (hc : DrawContract synth)
    (ids : List GeogId) (order : List ℕ) (r : RunAcc)
    (h : parRun fetch synth ids order = .ok r) : GoodAcc r := by
  obtain ⟨args, hargs, hr⟩ := parRun_ok_elim fetch synth ids order r h
  rw [hr]
  exact par_fold_inv GoodAcc _
    (fun acc pr hpr hP =>
      parStep_good acc pr (par_future_contract synth hc args ids pr hpr) hP)
    initAcc goodAcc_init

/-- An accumulator with the id invariant has household index
`0, ..., len - 1`, in particular strictly increasing. -/
theorem goodAcc_spec (acc : RunAcc) (h : GoodAcc acc) :
    acc.hhs.map HouseholdRow.id = List.range acc.hhs.length ∧
    List.Pairwise (· < ·) (acc.hhs.map HouseholdRow.id) := by
  obtain ⟨hm, _⟩ := h
  have hlen : acc.hhs.length = acc.start := by
    simpa using congrArg List.length hm
  constructor
  · rw [hm, hlen]
  · rw [hm]
    exact List.pairwise_lt_range acc.start

/-- Claim C1: in the parallel driver, phase-3 reassembly is supposed to
attach the i-th submitted geography's key columns and FitQuality slot to
that same geography's synthesized rows regardless of worker completion
order.  The code violates this: `futures` is built from `finished_args`,
which was collected in phase-1 *completion* order, while `geog_ids[i]`
is the i-th id in *submission* order.  With two geographies where `gA`
synthesizes one household with chi-square 1 and `gB` two households with
chi-square 2, and phase-1 completion order [1, 0], the driver records
`gB`'s two household rows and chi-square 2 under `gA`'s key columns and
FitQuality key, and vice versa. -/
theorem claim_C1_parallel_misattribution :
    parRun demoFetch demoSynth [gA, gB] [1, 0] =
      .ok ⟨[⟨0, some gA⟩, ⟨1, some gA⟩, ⟨2, some gB⟩],
        [⟨0, none⟩, ⟨1, none⟩, ⟨2, none⟩],
        [(gA, ⟨2, 1⟩), (gB, ⟨1, 1⟩)], 3⟩ ∧
    demoSynth gA 0 = .ok ⟨[0], [0], 1, 1⟩ ∧
    demoSynth gB 0 = .ok ⟨[0, 1], [0, 1], 2, 1⟩ := by
  refine ⟨by decide, by decide, by decide⟩

/-- Claim C2 (counterexample): an error raised while fetching one
geography's input tables in phase 1 does *not* abort only that geography.
With five geographies whose third input fetch raises, the whole parallel
driver call re-raises the fetch error (at the unguarded
`finished_arg.result()`), returning no tables at all instead of the other
four geographies' results. -/
theorem claim_C2_counterexample :
    parRun fetchBoom demoSynth fiveGeogs (List.range 5) =
      .error "fetch failed" := by
  decide

/-- Claim C2 (amended): only a failure in a geography's phase-2 synthesis
task is isolated.  When every phase-1 fetch succeeds (and phase 1 completes
in submission order), the batch completes, the FitQuality map lists exactly
the geographies whose synthesis future succeeded, and every returned
household row carries the key columns of a succeeded geography. -/
theorem claim_C2_phase2_isolation {I E : Type} (fetch : GeogId → Except E I)
    (inpF : GeogId → I) (hf : ∀ g, fetch g = .ok (inpF g))
    (synth : I → ℕ → Except E SynthOut) (ids : List GeogId) :
    ∃ r, parRun fetch synth ids (List.range ids.length) = .ok r ∧
      r.fit.map Prod.fst = ids.filter (fun g => (synth (inpF g) 0).isOk) ∧
      ∀ h ∈ r.hhs, ∃ g ∈ ids, (synth (inpF g) 0).isOk ∧ h.geo = some g := by
  have hargs := collectArgs_ok fetch inpF hf ids (List.range ids.length)
  have hgetd : (List.range ids.length).map (fun j => ids.getD j ⟨0, 0, 0, 0⟩) = ids :=
    getD_range_map ⟨0, 0, 0, 0⟩ ids
  have hmap : (List.range ids.length).map
      (fun j => inpF (ids.getD j ⟨0, 0, 0, 0⟩)) = ids.map inpF := by
    conv_rhs => rw [← hgetd]
    rw [List.map_map]
    rfl
  rw [hmap] at hargs
  have hpaired : ids.zip ((ids.map inpF).map (fun a => synth a 0)) =
      ids.map (fun g => (g, synth (inpF g) 0)) := by
    rw [List.map_map]
    exact zip_self_map (fun g => synth (inpF g) 0) ids
  refine ⟨(ids.map (fun g => (g, synth (inpF g) 0))).foldl parStep initAcc,
    ?_, ?_, ?_⟩
  · unfold parRun
    rw [hargs, ok_bind]
    show pure ((ids.zip ((ids.map inpF).map (fun a => synth a 0))).foldl
      parStep initAcc) = _
    rw [hpaired]
    rfl
  · rw [par_fit_filter]
    rfl
  · intro h hm
    have := par_hh_succeed (fun g => synth (inpF g) 0) ids initAcc h hm
    rcases this with hbad | ⟨g, hg, hok, hgeo⟩
    · simp [initAcc] at hbad
    · exact ⟨g, hg, hok, hgeo⟩

/-- Witness for claim C2 (amended): five geographies, the third one's
synthesis future fails; the batch completes with the other four. -/
theorem claim_C2_phase2_isolation_witness :
    ∃ r, parRun demoFetch synthBoom fiveGeogs (List.range fiveGeogs.length) =
        .ok r ∧
      r.fit.map Prod.fst =
        fiveGeogs.filter (fun g => (synthBoom (id g) 0).isOk) ∧
      ∀ h ∈ r.hhs, ∃ g ∈ fiveGeogs, (synthBoom (id g) 0).isOk ∧
        h.geo = some g :=
  claim_C2_phase2_isolation demoFetch id (fun _ => rfl) synthBoom fiveGeogs

/-- Claim C3: in both drivers, a completed run's concatenated household
table has row index exactly `0, 1, ..., len - 1` — strictly increasing,
non-overlapping across geography boundaries, each geography starting one
past the maximum id produced so far — given the drawer contract
(households indexed consecutively from the supplied offset). -/
theorem claim_C3_household_ids {I E : Type} (fetch : GeogId → Except E I)
    (synth : I → ℕ → Except E SynthOut) (hc : DrawContract synth)
    (ids ids2 : List GeogId) (order : List ℕ) (r r2 : RunAcc)
    (hseq : seqRun fetch synth ids = .ok r)
    (hpar : parRun fetch synth ids2 order = .ok r2) :
    (r.hhs.map HouseholdRow.id = List.range r.hhs.length ∧
      List.Pairwise (· < ·) (r.hhs.map HouseholdRow.id)) ∧
    (r2.hhs.map HouseholdRow.id = List.range r2.hhs.length ∧
      List.Pairwise (· < ·) (r2.hhs.map HouseholdRow.id)) :=
  ⟨goodAcc_spec r (seqRun_good fetch synth hc ids r hseq),
    goodAcc_spec r2 (parRun_good fetch synth hc ids2 order r2 hpar)⟩

/-- Witness for claim C3 at a concrete two-geography run of both
drivers. -/
theorem claim_C3_household_ids_witness :
    ((RunAcc.mk [⟨0, some gA⟩, ⟨1, some gB⟩, ⟨2, some gB⟩]
        [⟨0, none⟩, ⟨1, none⟩, ⟨2, none⟩]
        [(gA, ⟨1, 1⟩), (gB, ⟨2, 1⟩)] 3).hhs.map HouseholdRow.id =
      List.range (RunAcc.mk [⟨0, some gA⟩, ⟨1, some gB⟩, ⟨2, some gB⟩]
        [⟨0, none⟩, ⟨1, none⟩, ⟨2, none⟩]
        [(gA, ⟨1, 1⟩), (gB, ⟨2, 1⟩)] 3).hhs.length ∧
      List.Pairwise (· < ·) ((RunAcc.mk [⟨0, some gA⟩, ⟨1, some gB⟩, ⟨2, some gB⟩]
        [⟨0, none⟩, ⟨1, none⟩, ⟨2, none⟩]
        [(gA, ⟨1, 1⟩), (gB, ⟨2, 1⟩)] 3).hhs.map HouseholdRow.id)) ∧
    ((RunAcc.mk [⟨0, some gA⟩, ⟨1, some gB⟩, ⟨2, some gB⟩]
        [⟨0, none⟩, ⟨1, none⟩, ⟨2, none⟩]
        [(gA, ⟨1, 1⟩), (gB, ⟨2, 1⟩)] 3).hhs.map HouseholdRow.id =
      List.range (RunAcc.mk [⟨0, some gA⟩, ⟨1, some gB⟩, ⟨2, some gB⟩]
        [⟨0, none⟩, ⟨1, none⟩, ⟨2, none⟩]
        [(gA, ⟨1, 1⟩), (gB, ⟨2, 1⟩)] 3).hhs.length ∧
      List.Pairwise (· < ·) ((RunAcc.mk [⟨0, some gA⟩, ⟨1, some gB⟩, ⟨2, some gB⟩]
        [⟨0, none⟩, ⟨1, none⟩, ⟨2, none⟩]
        [(gA, ⟨1, 1⟩), (gB, ⟨2, 1⟩)] 3).hhs.map HouseholdRow.id)) :=
  claim_C3_household_ids demoFetch demoSynth demoSynth_contract
    [gA, gB] [gA, gB] [0, 1] _ _ (by decide) (by decide)

/-- A successful sequential run satisfies the geography-column
invariant. -/
theorem seqRun_geo {I E : Type} (fetch : GeogId → Except E I)
    (synth : I → ℕ → Except E SynthOut) (ids : List GeogId) (r : RunAcc)
    (h : seqRun fetch synth ids = .ok r) : GeoAcc ids r :=
  seq_fold_inv fetch synth (GeoAcc ids) ids
    (fun acc gid r2 hg hP hs => seqStep_geo fetch synth ids acc gid r2 hg hP hs)
    initAcc r (geoAcc_init ids) h

/-- A successful parallel run satisfies the geography-column invariant. -/
theorem parRun_geo {I E : Type} (fetch : GeogId → Except E I)
    (synth : I → ℕ → Except E SynthOut) (ids : List GeogId) (order : List ℕ)
    (r : RunAcc) (h : parRun fetch synth ids order = .ok r) : GeoAcc ids r := by
  obtain ⟨args, hargs, hr⟩ := parRun_ok_elim fetch synth ids order r h
  rw [hr]
  exact par_fold_inv (GeoAcc ids) _
    (fun acc pr hpr hP => parStep_geo ids acc pr (List.of_mem_zip hpr).1 hP)
    initAcc (geoAcc_init ids)

/-- Claim C4 (counterexample): person records do not carry the geography
key columns.  Running the sequential driver on the single geography `gA`
(one household, one person) yields a person row with no geography columns
(`geo = none`), refuting the claim that the drivers append the geography
key columns to person records as well. -/
theorem claim_C4_counterexample :
    seqRun demoFetch demoSynth [gA] =
      .ok ⟨[⟨0, some gA⟩], [⟨0, none⟩], [(gA, ⟨1, 1⟩)], 1⟩ := by
  decide

/-- Claim C4 (amended): the drivers append the geography key columns to
household records only; every returned household row carries the key
columns of one of the submitted geographies, while every person row
carries only its `hh_id` foreign key and no geography columns. -/
theorem claim_C4_geo_columns {I E : Type} (fetch : GeogId → Except E I)
    (synth : I → ℕ → Except E SynthOut) (ids ids2 : List GeogId)
    (order : List ℕ) (r r2 : RunAcc)
    (hseq : seqRun fetch synth ids = .ok r)
    (hpar : parRun fetch synth ids2 order = .ok r2) :
    ((∀ h ∈ r.hhs, ∃ g ∈ ids, h.geo = some g) ∧
      ∀ p ∈ r.ppl, p.geo = none) ∧
    ((∀ h ∈ r2.hhs, ∃ g ∈ ids2, h.geo = some g) ∧
      ∀ p ∈ r2.ppl, p.geo = none) :=
  ⟨seqRun_geo fetch synth ids r hseq, parRun_geo fetch synth ids2 order r2 hpar⟩

/-- Witness for claim C4 (amended) at a concrete one-geography run of both
drivers. -/
theorem claim_C4_geo_columns_witness :
    ((∀ h ∈ (RunAcc.mk [⟨0, some gA⟩] [⟨0, none⟩] [(gA, ⟨1, 1⟩)] 1).hhs,
        ∃ g ∈ [gA], h.geo = some g) ∧
      ∀ p ∈ (RunAcc.mk [⟨0, some gA⟩] [⟨0, none⟩] [(gA, ⟨1, 1⟩)] 1).ppl,
        p.geo = none) ∧
    ((∀ h ∈ (RunAcc.mk [⟨0, some gA⟩] [⟨0, none⟩] [(gA, ⟨1, 1⟩)] 1).hhs,
        ∃ g ∈ [gA], h.geo = some g) ∧
      ∀ p ∈ (RunAcc.mk [⟨0, some gA⟩] [⟨0, none⟩] [(gA, ⟨1, 1⟩)] 1).ppl,
        p.geo = none) :=
  claim_C4_geo_columns demoFetch demoSynth [gA] [gA] [0] _ _
    (by decide) (by decide)

/-- Claim C5 (counterexample): the household count handed to the drawer is
the *truncated* mean, not the rounded mean.  For a marginal with group
totals 1 and 2 the mean is 3/2: the code draws `int(3/2) = 1` households
while the claimed `round(3/2)` is 2. -/
theorem claim_C5_counterexample :
    (synthesize extTriv c5In (1/100) (1/1000) 0).toOption.map
      SynthRes.drawn_count = some 1 ∧
    round (listMean (margGroupSums (replaceZeroMarg c5In.h_marg (1/100)))) =
      (2 : ℤ) := by
  have hrun : synthesize extTriv c5In (1/100) (1/1000) 0 = .ok
      ⟨⟨[], [], 0, 0⟩, false, 1,
        numHouseholds (replaceZeroMarg c5In.h_marg (1/100)),
        c5In.h_marg, c5In.p_marg, [], [], []⟩ := rfl
  constructor
  · rw [hrun]
    show some (numHouseholds (replaceZeroMarg c5In.h_marg (1/100))) = some 1
    norm_num [numHouseholds, listMean, margGroupSums, margLabels, margGroupSum,
      replaceZeroMarg, c5In, List.dedup, Rat.floor]
  · norm_num [listMean, margGroupSums, margLabels, margGroupSum,
      replaceZeroMarg, c5In, List.dedup, round_eq]

/-- Claim C5 (amended): for every geography the number of households passed
to the drawer is the mean, across categories, of the zero-substituted
household marginal's group totals, truncated towards zero (Python `int`),
not rounded; on the spec's own two-category example `{cat1: 0, cat2: 40}`
with substitute 1/100 both agree and the target count is 20. -/
theorem claim_C5_truncated_mean (ext : Externals) (inp : SynthIn)
    (msub jsub : ℚ) (st : ℕ) (r : SynthRes)
    (h : synthesize ext inp msub jsub st = .ok r) :
    r.drawn_count =
      (listMean (margGroupSums (replaceZeroMarg inp.h_marg msub))).floor.toNat ∧
    numHouseholds (replaceZeroMarg ([(0, 0), (1, 40)] : Marg) (1/100)) = 20 ∧
    round (listMean (margGroupSums
      (replaceZeroMarg ([(0, 0), (1, 40)] : Marg) (1/100)))) = (20 : ℤ) := by
  refine ⟨(synthesize_ok_shape ext inp msub jsub st r h).1, ?_, ?_⟩
  · norm_num [numHouseholds, listMean, margGroupSums, margLabels, margGroupSum,
      replaceZeroMarg, List.dedup, Rat.floor]
    rfl
  · norm_num [listMean, margGroupSums, margLabels, margGroupSum,
      replaceZeroMarg, List.dedup, round_eq]

/-- Witness for claim C5 (amended) at a concrete `synthesize` run. -/
theorem claim_C5_truncated_mean_witness :
    (SynthRes.mk ⟨[], [], 0, 0⟩ false 1
        (numHouseholds (replaceZeroMarg c5In.h_marg (1/100)))
        ([(0, 1), (1, 2)] : Marg) ([] : Marg) [] [] []).drawn_count =
      (listMean (margGroupSums (replaceZeroMarg c5In.h_marg (1/100)))).floor.toNat ∧
    numHouseholds (replaceZeroMarg ([(0, 0), (1, 40)] : Marg) (1/100)) = 20 ∧
    round (listMean (margGroupSums
      (replaceZeroMarg ([(0, 0), (1, 40)] : Marg) (1/100)))) = (20 : ℤ) :=
  claim_C5_truncated_mean extTriv c5In (1/100) (1/1000) 0 _ rfl

/-- Pointwise characterization of the Zero-Guard on a marginal table:
labels are kept, zero cells become the substitute, nonzero cells are
unchanged. -/
theorem forall2_replaceZeroMarg (m : Marg) (sub : ℚ) :
    List.Forall₂ (fun p q => q.1 = p.1 ∧ (p.2 = 0 → q.2 = sub) ∧
      (p.2 ≠ 0 → q.2 = p.2)) m (replaceZeroMarg m sub) := by
  induction m with
  | nil => exact List.Forall₂.nil
  | cons p t ih =>
    refine List.Forall₂.cons ⟨rfl, ?_, ?_⟩ ih
    · intro h0
      show (if p.2 = 0 then sub else p.2) = sub
      rw [if_pos h0]
    · intro h0
      show (if p.2 = 0 then sub else p.2) = p.2
      rw [if_neg h0]

/-- Pointwise characterization of the Zero-Guard on a joint-distribution
frequency column: cat ids are kept, zero frequencies become the substitute,
nonzero frequencies are unchanged. -/
theorem forall2_replaceZeroJD (jd : List JDRow) (sub : ℚ) :
    List.Forall₂ (fun a b => b.cat_id = a.cat_id ∧
      (a.frequency = 0 → b.frequency = sub) ∧
      (a.frequency ≠ 0 → b.frequency = a.frequency)) jd (replaceZeroJD jd sub) := by
  induction jd with
  | nil => exact List.Forall₂.nil
  | cons a t ih =>
    refine List.Forall₂.cons ⟨rfl, ?_, ?_⟩ ih
    · intro h0
      show (if a.frequency = 0 then sub else a.frequency) = sub
      rw [if_pos h0]
    · intro h0
      show (if a.frequency = 0 then sub else a.frequency) = a.frequency
      rw [if_neg h0]

/-- Claim C6: the Zero-Guard step replaces exactly the cells equal to zero
with the substitute and leaves every nonzero cell unchanged, for marginal
tables and joint-distribution frequency columns alike; since the tables
hold non-negative integer counts (spec data model), with substitute 1/100
every resulting value is at least 1/100. -/
theorem claim_C6_zero_guard (m : Marg) (jd : List JDRow) (sub : ℚ)
    (hpos : 0 < sub)
    (hm : ∀ p ∈ m, ∃ n : ℕ, p.2 = (n : ℚ))
    (hj : ∀ rrow ∈ jd, ∃ n : ℕ, rrow.frequency = (n : ℚ)) :
    List.Forall₂ (fun p q => q.1 = p.1 ∧ (p.2 = 0 → q.2 = sub) ∧
      (p.2 ≠ 0 → q.2 = p.2)) m (replaceZeroMarg m sub) ∧
    List.Forall₂ (fun a b => b.cat_id = a.cat_id ∧
      (a.frequency = 0 → b.frequency = sub) ∧
      (a.frequency ≠ 0 → b.frequency = a.frequency)) jd (replaceZeroJD jd sub) ∧
    (sub = 1/100 →
      (∀ q ∈ (replaceZeroMarg m sub).map Prod.snd, 1/100 ≤ q) ∧
      ∀ b ∈ replaceZeroJD jd sub, 1/100 ≤ b.frequency) := by
  refine ⟨forall2_replaceZeroMarg m sub, forall2_replaceZeroJD jd sub, ?_⟩
  intro hsub
  subst hsub
  constructor
  · intro q hq
    rw [List.mem_map] at hq
    obtain ⟨pair, hpair, rfl⟩ := hq
    unfold replaceZeroMarg at hpair
    rw [List.mem_map] at hpair
    obtain ⟨p, hp, rfl⟩ := hpair
    show (1 : ℚ)/100 ≤ if p.2 = 0 then 1/100 else p.2
    by_cases hz : p.2 = 0
    · rw [if_pos hz]
    · rw [if_neg hz]
      obtain ⟨n, hn⟩ := hm p hp
      have hn0 : n ≠ 0 := by
        intro h0
        apply hz
        rw [hn, h0]
        norm_num
      have h1 : (1 : ℚ) ≤ (n : ℚ) := by
        exact_mod_cast Nat.one_le_iff_ne_zero.mpr hn0
      rw [hn]
      linarith
  · intro b hb
    unfold replaceZeroJD at hb
    rw [List.mem_map] at hb
    obtain ⟨a, ha, rfl⟩ := hb
    show (1 : ℚ)/100 ≤ if a.frequency = 0 then 1/100 else a.frequency
    by_cases hz : a.frequency = 0
    · rw [if_pos hz]
    · rw [if_neg hz]
      obtain ⟨n, hn⟩ := hj a ha
      have hn0 : n ≠ 0 := by
        intro h0
        apply hz
        rw [hn, h0]
        norm_num
      have h1 : (1 : ℚ) ≤ (n : ℚ) := by
        exact_mod_cast Nat.one_le_iff_ne_zero.mpr hn0
      rw [hn]
      linarith

/-- Witness for claim C6 on a marginal with a zero cell and a
joint-distribution column with a zero cell. -/
theorem claim_C6_zero_guard_witness :
    List.Forall₂ (fun p q => q.1 = p.1 ∧ (p.2 = 0 → q.2 = 1/100) ∧
      (p.2 ≠ 0 → q.2 = p.2)) ([(0, 0), (1, 40)] : Marg)
      (replaceZeroMarg ([(0, 0), (1, 40)] : Marg) (1/100)) ∧
    List.Forall₂ (fun a b => b.cat_id = a.cat_id ∧
      (a.frequency = 0 → b.frequency = 1/100) ∧
      (a.frequency ≠ 0 → b.frequency = a.frequency))
      ([⟨0, 0⟩, ⟨1, 2⟩] : List JDRow)
      (replaceZeroJD ([⟨0, 0⟩, ⟨1, 2⟩] : List JDRow) (1/100)) ∧
    ((1 : ℚ)/100 = 1/100 →
      (∀ q ∈ (replaceZeroMarg ([(0, 0), (1, 40)] : Marg) (1/100)).map Prod.snd,
        1/100 ≤ q) ∧
      ∀ b ∈ replaceZeroJD ([⟨0, 0⟩, ⟨1, 2⟩] : List JDRow) (1/100),
        1/100 ≤ b.frequency) :=
  claim_C6_zero_guard ([(0, 0), (1, 40)] : Marg)
    ([⟨0, 0⟩, ⟨1, 2⟩] : List JDRow) (1/100)
    (by norm_num)
    (by
      intro p hp
      simp only [List.mem_cons, List.mem_singleton] at hp
      rcases hp with hp | hp | hp
      · exact ⟨0, by rw [hp]; norm_num⟩
      · exact ⟨40, by rw [hp]; norm_num⟩
      · simp at hp)
    (by
      intro rrow hr
      simp only [List.mem_cons, List.mem_singleton] at hr
      rcases hr with hr | hr | hr
      · exact ⟨0, by rw [hr]; norm_num⟩
      · exact ⟨2, by rw [hr]; norm_num⟩
      · simp at hr)

/-- Claim C7: after the Category Namespacer step, the minimum person
`cat_id` (in both the person joint distribution and the person sample
table) equals the maximum household `cat_id` plus one — the shifted value
`max + 1` occurs (since categorizer `cat_id`s start at 0) and bounds every
shifted id from below — and the household and person `cat_id` sets are
disjoint. -/
theorem claim_C7_namespacer (h_jd p_jd : List JDRow) (p_pums : List ℕ)
    (h0 : 0 ∈ p_jd.map JDRow.cat_id) :
    (maxCatId h_jd + 1) ∈ (namespacePjd h_jd p_jd).map JDRow.cat_id ∧
    (∀ b ∈ (namespacePjd h_jd p_jd).map JDRow.cat_id, maxCatId h_jd + 1 ≤ b) ∧
    (∀ a ∈ h_jd.map JDRow.cat_id,
      ∀ b ∈ (namespacePjd h_jd p_jd).map JDRow.cat_id, a ≠ b) ∧
    (∀ a ∈ h_jd.map JDRow.cat_id,
      ∀ b ∈ namespacePpums h_jd p_pums, a ≠ b) := by
  have hb : ∀ b ∈ (namespacePjd h_jd p_jd).map JDRow.cat_id,
      maxCatId h_jd + 1 ≤ b := by
    intro b hbm
    rw [List.mem_map] at hbm
    obtain ⟨rrow, hr, rfl⟩ := hbm
    unfold namespacePjd at hr
    rw [List.mem_map] at hr
    obtain ⟨r0, _, rfl⟩ := hr
    show maxCatId h_jd + 1 ≤ r0.cat_id + (maxCatId h_jd + 1)
    omega
  refine ⟨?_, hb, ?_, ?_⟩
  · rw [List.mem_map] at h0
    obtain ⟨r0, hr0, h00⟩ := h0
    rw [List.mem_map]
    refine ⟨⟨r0.cat_id + (maxCatId h_jd + 1), r0.frequency⟩, ?_, ?_⟩
    · unfold namespacePjd
      rw [List.mem_map]
      exact ⟨r0, hr0, rfl⟩
    · show r0.cat_id + (maxCatId h_jd + 1) = maxCatId h_jd + 1
      rw [h00]
      omega
  · intro a ha b hbm
    have hub := hb b hbm
    have hle := le_maxCatId h_jd a ha
    omega
  · intro a ha b hbm
    unfold namespacePpums at hbm
    rw [List.mem_map] at hbm
    obtain ⟨c, _, rfl⟩ := hbm
    have hle := le_maxCatId h_jd a ha
    omega

/-- Witness for claim C7 with household cat ids {0, 2} and person cat ids
{0, 1}: the namespaced person ids are {3, 4}, whose minimum is 2 + 1. -/
theorem claim_C7_namespacer_witness :
    (maxCatId [⟨0, 1⟩, ⟨2, 1⟩] + 1) ∈
      (namespacePjd [⟨0, 1⟩, ⟨2, 1⟩] [⟨0, 1⟩, ⟨1, 1⟩]).map JDRow.cat_id ∧
    (∀ b ∈ (namespacePjd [⟨0, 1⟩, ⟨2, 1⟩] [⟨0, 1⟩, ⟨1, 1⟩]).map JDRow.cat_id,
      maxCatId [⟨0, 1⟩, ⟨2, 1⟩] + 1 ≤ b) ∧
    (∀ a ∈ ([⟨0, 1⟩, ⟨2, 1⟩] : List JDRow).map JDRow.cat_id,
      ∀ b ∈ (namespacePjd [⟨0, 1⟩, ⟨2, 1⟩] [⟨0, 1⟩, ⟨1, 1⟩]).map JDRow.cat_id,
        a ≠ b) ∧
    (∀ a ∈ ([⟨0, 1⟩, ⟨2, 1⟩] : List JDRow).map JDRow.cat_id,
      ∀ b ∈ namespacePpums [⟨0, 1⟩, ⟨2, 1⟩] [0, 1], a ≠ b) :=
  claim_C7_namespacer [⟨0, 1⟩, ⟨2, 1⟩] [⟨0, 1⟩, ⟨1, 1⟩] [0, 1] (by decide)

/-- Claim C8: when the IPU solver reports having used the full 20000
iteration budget, `synthesize` does not raise — it records the warning and
proceeds to draw households with the best weights the solver returned,
returning the drawer's output. -/
theorem claim_C8_iteration_cap (ext : Externals) (inp : SynthIn)
    (msub jsub : ℚ) (st : ℕ) (c : Marg → List ℚ → List ℚ)
    (w : List ℚ) (fq : ℚ) (d : SynthOut)
    (hc : ∀ m f, ext.calculate_constraints m f = .ok (c m f))
    (hw : ∀ hf pf hcon pcon,
      ext.household_weights hf pf hcon pcon 20000 = .ok (w, fq, 20000))
    (hd : ∀ n hp pp hf hcon pcon st2,
      ext.draw_households n hp pp hf hcon pcon w st2 = .ok d) :
    ∃ r, synthesize ext inp msub jsub st = .ok r ∧ r.warned = true ∧
      r.iterations = 20000 ∧ r.out = d := by
  refine ⟨⟨d, true, 20000, numHouseholds (replaceZeroMarg inp.h_marg msub),
    inp.h_marg, inp.p_marg, replaceZeroJD inp.h_jd jsub,
    namespacePjd inp.h_jd (replaceZeroJD inp.p_jd jsub),
    namespacePpums inp.h_jd inp.p_pums⟩, ?_, rfl, rfl, rfl⟩
  simp only [synthesize]
  rw [hc, ok_bind, hc, ok_bind, hw, ok_bind, hd, ok_bind]
  rfl

/-- Witness for claim C8 with external collaborators whose IPU reports the
full 20000-iteration budget. -/
theorem claim_C8_iteration_cap_witness :
    ∃ r, synthesize extWarn ⟨[], [], [], [], [], []⟩ (1/100) (1/1000) 0 =
        .ok r ∧ r.warned = true ∧ r.iterations = 20000 ∧
      r.out = ⟨[], [], 0, 0⟩ :=
  claim_C8_iteration_cap extWarn ⟨[], [], [], [], [], []⟩ (1/100) (1/1000) 0
    (fun _ _ => []) [] 0 ⟨[], [], 0, 0⟩ (fun _ _ => rfl) (fun _ _ _ _ => rfl)
    (fun _ _ _ _ _ _ _ => rfl)

/-- Claim C9 (counterexample): `synthesize` is not side-effect-free on the
caller's tables.  On an input whose household joint distribution has one
zero-frequency cell, the caller's table holds frequency 1/1000 (the
substitute) after the call, not its original 0. -/
theorem claim_C9_counterexample :
    (synthesize extTriv c9In (1/100) (1/1000) 0).toOption.map
      SynthRes.final_h_jd = some [⟨0, 1/1000⟩] ∧
    (synthesize extTriv c9In (1/100) (1/1000) 0).toOption.map
      SynthRes.final_h_jd ≠ some c9In.h_jd := by
  have hrun : synthesize extTriv c9In (1/100) (1/1000) 0 = .ok
      ⟨⟨[], [], 0, 0⟩, false, 1,
        numHouseholds (replaceZeroMarg c9In.h_marg (1/100)),
        c9In.h_marg, c9In.p_marg, [⟨0, 1/1000⟩], [⟨1, 5⟩], [1]⟩ := rfl
  rw [hrun]
  constructor
  · rfl
  · show some [(⟨0, 1/1000⟩ : JDRow)] ≠ some c9In.h_jd
    simp only [c9In, Option.some.injEq, List.cons.injEq, JDRow.mk.injEq,
      ne_eq, not_and, and_imp]
    intro h
    norm_num

/-- Claim C9 (amended): `synthesize` leaves the caller's marginal tables
unchanged (the zero-substituted marginals are local rebinds), but mutates
in place the household joint-distribution frequency column
(zero-substituted, cat ids untouched), the person joint-distribution table
(frequency zero-substituted and cat ids namespaced) and the person sample
table's cat ids (namespaced). -/
theorem claim_C9_mutation (ext : Externals) (inp : SynthIn) (msub jsub : ℚ)
    (st : ℕ) (r : SynthRes) (h : synthesize ext inp msub jsub st = .ok r) :
    r.final_h_marg = inp.h_marg ∧ r.final_p_marg = inp.p_marg ∧
    r.final_h_jd = replaceZeroJD inp.h_jd jsub ∧
    r.final_h_jd.map JDRow.cat_id = inp.h_jd.map JDRow.cat_id ∧
    r.final_p_jd = namespacePjd inp.h_jd (replaceZeroJD inp.p_jd jsub) ∧
    r.final_p_pums = namespacePpums inp.h_jd inp.p_pums := by
  obtain ⟨-, h2, h3, h4, h5, h6⟩ := synthesize_ok_shape ext inp msub jsub st r h
  refine ⟨h2, h3, h4, ?_, h5, h6⟩
  rw [h4]
  unfold replaceZeroJD
  rw [List.map_map]
  rfl

/-- Witness for claim C9 (amended) at a concrete `synthesize` run with a
zero frequency cell. -/
theorem claim_C9_mutation_witness :
    (SynthRes.mk ⟨[], [], 0, 0⟩ false 1
        (numHouseholds (replaceZeroMarg c9In.h_marg (1/100)))
        c9In.h_marg c9In.p_marg [⟨0, 1/1000⟩] [⟨1, 5⟩] [1]).final_h_marg =
      c9In.h_marg ∧
    (SynthRes.mk ⟨[], [], 0, 0⟩ false 1
        (numHouseholds (replaceZeroMarg c9In.h_marg (1/100)))
        c9In.h_marg c9In.p_marg [⟨0, 1/1000⟩] [⟨1, 5⟩] [1]).final_p_marg =
      c9In.p_marg ∧
    (SynthRes.mk ⟨[], [], 0, 0⟩ false 1
        (numHouseholds (replaceZeroMarg c9In.h_marg (1/100)))
        c9In.h_marg c9In.p_marg [⟨0, 1/1000⟩] [⟨1, 5⟩] [1]).final_h_jd =
      replaceZeroJD c9In.h_jd (1/1000) ∧
    (SynthRes.mk ⟨[], [], 0, 0⟩ false 1
        (numHouseholds (replaceZeroMarg c9In.h_marg (1/100)))
        c9In.h_marg c9In.p_marg [⟨0, 1/1000⟩] [⟨1, 5⟩] [1]).final_h_jd.map
        JDRow.cat_id = c9In.h_jd.map JDRow.cat_id ∧
    (SynthRes.mk ⟨[], [], 0, 0⟩ false 1
        (numHouseholds (replaceZeroMarg c9In.h_marg (1/100)))
        c9In.h_marg c9In.p_marg [⟨0, 1/1000⟩] [⟨1, 5⟩] [1]).final_p_jd =
      namespacePjd c9In.h_jd (replaceZeroJD c9In.p_jd (1/1000)) ∧
    (SynthRes.mk ⟨[], [], 0, 0⟩ false 1
        (numHouseholds (replaceZeroMarg c9In.h_marg (1/100)))
        c9In.h_marg c9In.p_marg [⟨0, 1/1000⟩] [⟨1, 5⟩] [1]).final_p_pums =
      namespacePpums c9In.h_jd c9In.p_pums :=
  claim_C9_mutation extTriv c9In (1/100) (1/1000) 0 _ rfl

/-- Claim C10: in every completed run of either driver, every person row's
`hh_id` is the id of a household row present in the same run's household
table, given the drawer contract (persons reference drawn households; both
index and `hh_id` are shifted by the same offset in parallel mode). -/
theorem claim_C10_foreign_keys {I E : Type} (fetch : GeogId → Except E I)
    (synth : I → ℕ → Except E SynthOut) (hc : DrawContract synth)
    (ids ids2 : List GeogId) (order : List ℕ) (r r2 : RunAcc)
    (hseq : seqRun fetch synth ids = .ok r)
    (hpar : parRun fetch synth ids2 order = .ok r2) :
    (∀ p ∈ r.ppl, p.hh_id ∈ r.hhs.map HouseholdRow.id) ∧
    ∀ p ∈ r2.ppl, p.hh_id ∈ r2.hhs.map HouseholdRow.id :=
  ⟨(seqRun_good fetch synth hc ids r hseq).2,
    (parRun_good fetch synth hc ids2 order r2 hpar).2⟩

/-- Witness for claim C10 at a concrete two-geography run of both
drivers. -/
theorem claim_C10_foreign_keys_witness :
    (∀ p ∈ (RunAcc.mk [⟨0, some gA⟩, ⟨1, some gB⟩, ⟨2, some gB⟩]
        [⟨0, none⟩, ⟨1, none⟩, ⟨2, none⟩]
        [(gA, ⟨1, 1⟩), (gB, ⟨2, 1⟩)] 3).ppl,
      p.hh_id ∈ (RunAcc.mk [⟨0, some gA⟩, ⟨1, some gB⟩, ⟨2, some gB⟩]
        [⟨0, none⟩, ⟨1, none⟩, ⟨2, none⟩]
        [(gA, ⟨1, 1⟩), (gB, ⟨2, 1⟩)] 3).hhs.map HouseholdRow.id) ∧
    ∀ p ∈ (RunAcc.mk [⟨0, some gA⟩, ⟨1, some gB⟩, ⟨2, some gB⟩]
        [⟨0, none⟩, ⟨1, none⟩, ⟨2, none⟩]
        [(gA, ⟨1, 1⟩), (gB, ⟨2, 1⟩)] 3).ppl,
      p.hh_id ∈ (RunAcc.mk [⟨0, some gA⟩, ⟨1, some gB⟩, ⟨2, some gB⟩]
        [⟨0, none⟩, ⟨1, none⟩, ⟨2, none⟩]
        [(gA, ⟨1, 1⟩), (gB, ⟨2, 1⟩)] 3).hhs.map HouseholdRow.id :=
  claim_C10_foreign_keys demoFetch demoSynth demoSynth_contract
    [gA, gB] [gA, gB] [0, 1] _ _ (by decide) (by decide)

end Synthpop
